import Mathlib

/-!
# Verification of the archetect core (actions.rs, core.rs, source.rs)

A shallow embedding of the archetect scaffolding engine's core:

* the Action Engine (`ActionId::execute` in `actions.rs`), as a
  step-indexed interpreter `exec` over an explicit execution state;
* the Path/File Renderer (`Archetect::render_directory`,
  `render_destination`, `render_path` in `core.rs`) over a model of the
  destination filesystem;
* the Source Resolver (`Source::detect`, `cache_git_repo` in
  `source.rs`) with external collaborators (git binary, url and
  shellexpand crates, farmhash, the real filesystem) supplied as
  oracles.

Parts of the repository referenced by these files but absent from the
examined sources (the `RulesContext` type in `rules.rs`, the vendored
tera template engine, the `IfAction`/`ForEachAction`/`ForAction` and
`set::populate_context` submodules, the `Requirements` loader) are
modelled from the specification; each such definition carries a doc
comment saying so.
-/

/-- Decidable equality of `Except` results, used to evaluate the
embedding on concrete inputs. -/
instance {ε α : Type} [DecidableEq ε] [DecidableEq α] : DecidableEq (Except ε α) :=
  fun a b =>
    match a, b with
    | .ok x, .ok y =>
      if h : x = y then isTrue (by rw [h]) else isFalse (by simp [h])
    | .error x, .error y =>
      if h : x = y then isTrue (by rw [h]) else isFalse (by simp [h])
    | .ok _, .error _ => isFalse (by simp)
    | .error _, .ok _ => isFalse (by simp)

namespace Archetect

/-! ## Values and the rendering context

The rendering context (`tera::Context`) is an associative map from
identifiers to structured values.  Insertion replaces the binding by
shadowing: lookups take the most recent binding.
-/

/-- Modelled from the spec: a structured template value (string, number,
boolean, ordered list, nested loop record) as consumed by the template
engine.  The `loopCtx` variant mirrors the serialized `LoopContext`
struct `{index, index0}` of `actions.rs`. -/
inductive Val where
  | int (n : Int)
  | str (s : String)
  | bool (b : Bool)
  | loopCtx (index index0 : Int)
deriving DecidableEq, Repr

/-- The rendering context: an association list, most recent binding first. -/
abbrev Ctx := List (String × Val)

/-- `Context::insert` — bind `k` to `v`, shadowing any earlier binding. -/
def ctxInsert (k : String) (v : Val) (c : Ctx) : Ctx := (k, v) :: c

/-- Lookup in the rendering context (first, i.e. most recent, binding wins). -/
def ctxLookup (k : String) (c : Ctx) : Option Val :=
  match c with
  | [] => none
  | (k', v) :: rest => if k' = k then some v else ctxLookup k rest

/-! ## The template engine façade

The vendored tera engine is not among the examined sources.  Modelled
from the spec: a general-purpose string-templating facility providing
expression evaluation; text containing no template expression renders
to itself, `\x7b\x7b expr \x7d\x7d` is replaced by the value of `expr`
looked up in the context, and an unclosed or unresolvable expression is
a render error (`none`).
-/

/-- The literal `\x7b` character, written via its code point. -/
def lbrace : Char := Char.ofNat 123

/-- The literal `\x7d` character, written via its code point. -/
def rbrace : Char := Char.ofNat 125

/-- Render a value to text, as template interpolation does.  Structured
values (lists, the loop record itself) are not directly printable. -/
def valToString : Val → Option String
  | .int n => some (toString n)
  | .str s => some s
  | .bool b => some (if b then "true" else "false")
  | .loopCtx _ _ => none

/-- Evaluate a dotted variable path (`["loop", "index"]`) against the
context: a bare name yields the bound value, a one-level field access
projects out of a loop record. -/
def evalVarPath (c : Ctx) : List String → Option Val
  | [name] => ctxLookup name c
  | [name, fld] =>
    match ctxLookup name c with
    | some (.loopCtx i i0) =>
      if fld = "index" then some (.int i)
      else if fld = "index0" then some (.int i0)
      else none
    | _ => none
  | _ => none

/-- Split a character list on dots (accumulator-based, so that it
computes by kernel reduction). -/
def splitDotAux (cur : List Char) : List Char → List String
  | [] => [String.mk cur.reverse]
  | c :: rest =>
    if c = '.' then String.mk cur.reverse :: splitDotAux [] rest
    else splitDotAux (c :: cur) rest

/-- Split the segments of a template expression: drop spaces, split on dots. -/
def parseSegs (l : List Char) : List String :=
  splitDotAux [] (l.filter (fun c => c ≠ ' '))

/-- Scan forward to the closing `\x7d\x7d` of a template expression,
returning the expression body and the remaining input. -/
def takeUntilClose : List Char → Option (List Char × List Char)
  | [] => none
  | c :: rest =>
    match rest with
    | [] => none
    | c2 :: rest2 =>
      if c = rbrace ∧ c2 = rbrace then some ([], rest2)
      else match takeUntilClose rest with
        | none => none
        | some (a, b) => some (c :: a, b)

theorem takeUntilClose_length :
    ∀ l inner rest, takeUntilClose l = some (inner, rest) →
      rest.length + 2 ≤ l.length := by
  intro l
  induction l with
  | nil => intro inner rest h; simp [takeUntilClose] at h
  | cons c tl ih =>
    intro inner rest h
    match tl, h with
    | [], h => simp [takeUntilClose] at h
    | c2 :: rest2, h =>
      rw [takeUntilClose] at h
      split at h
      · cases h; simp
      · split at h
        · cases h
        · rename_i a b heq
          cases h
          have := ih _ _ heq
          simp only [List.length_cons] at this ⊢
          omega

/-- Core of the modelled template renderer: copy text, evaluating each
`\x7b\x7b ... \x7d\x7d` expression against the context.  Fuel-indexed
(structural) so that it computes by kernel reduction; each step consumes
at least one input character, so `length + 1` fuel is always enough. -/
def renderAux (c : Ctx) (fuel : Nat) (l : List Char) : Option (List Char) :=
  match fuel with
  | 0 => none
  | f + 1 =>
    match l with
    | [] => some []
    | [ch] => some [ch]
    | c1 :: c2 :: rest =>
      if c1 = lbrace ∧ c2 = lbrace then
        match takeUntilClose rest with
        | none => none
        | some (inner, rem) =>
          match evalVarPath c (parseSegs inner) with
          | none => none
          | some v =>
            match valToString v with
            | none => none
            | some s =>
              match renderAux c f rem with
              | none => none
              | some out => some (s.toList ++ out)
      else
        match renderAux c f (c2 :: rest) with
        | none => none
        | some out => some (c1 :: out)

/-- Modelled from the spec: `render_string` of the template façade —
render a template string against a context; `none` is a render error. -/
def renderTemplate (c : Ctx) (s : String) : Option String :=
  (renderAux c (s.toList.length + 1) s.toList).map String.mk

/-- A string free of template expressions: no two adjacent `\x7b`. -/
def noExprChars : List Char → Bool
  | [] => true
  | [_] => true
  | c1 :: c2 :: rest => !(c1 = lbrace && c2 = lbrace) && noExprChars (c2 :: rest)

/-- A template-expression-free string. -/
def noTemplateExpr (s : String) : Bool := noExprChars s.toList

/-- Rendering a template-expression-free string is the identity
(substitution-free path rendering, §4.2 of the spec). -/
theorem renderAux_noExpr (c : Ctx) :
    ∀ f l, noExprChars l = true → l.length < f → renderAux c f l = some l := by
  intro f
  induction f with
  | zero => intro l _ h; omega
  | succ f ih =>
    intro l hne hlen
    match l with
    | [] => rw [renderAux]
    | [ch] => rw [renderAux]
    | c1 :: c2 :: rest =>
      rw [noExprChars] at hne
      simp only [Bool.and_eq_true, Bool.not_eq_true'] at hne
      rw [renderAux]
      have h1 : ¬(c1 = lbrace ∧ c2 = lbrace) := by
        intro ⟨e1, e2⟩
        subst e1; subst e2
        simp at hne
      simp only [List.length_cons] at hlen
      rw [if_neg h1, ih (c2 :: rest) hne.2 (by simp; omega)]

theorem renderTemplate_noExpr (c : Ctx) (s : String) :
    noTemplateExpr s = true → renderTemplate c s = some s := by
  intro h
  unfold renderTemplate
  rw [renderAux_noExpr c _ _ h (by omega)]
  simp

/-! ## The rules context

`RulesContext` lives in `rules.rs`, which is not among the examined
sources; only its uses from `actions.rs` and `core.rs` are.  It is
modelled from the spec (§4.4): an ordered list of path rules, an
`overwrite` flag (default false) and a `break_triggered` flag, with
value (deep-clone) semantics.
-/

/-- `RuleAction` (config) — the disposition of a source path. -/
inductive RuleAction where
  | RENDER
  | COPY
  | SKIP
deriving DecidableEq, Repr

/-- Modelled from the spec: a path rule `\x7bglob, action, recursive\x7d`. -/
structure Rule where
  pattern : String
  action : RuleAction
  recursive : Bool
deriving DecidableEq, Repr

/-- Modelled from the spec: minimal glob matching on a path component —
`*` matches anything, `*.ext` matches by extension, anything else is a
literal component match. -/
def globMatches (pat comp : String) : Bool :=
  match pat.toList with
  | ['*'] => true
  | '*' :: '.' :: ext => List.isSuffixOf ('.' :: ext) comp.toList
  | _ => pat = comp

/-- Modelled from the spec: a rule matches a path if its glob matches the
final component; the recursive flag extends the match to descendants
(any component on the path). -/
def Rule.ruleMatches (r : Rule) (p : List String) : Bool :=
  if r.recursive then p.any (fun comp => globMatches r.pattern comp)
  else
    match p.getLast? with
    | some comp => globMatches r.pattern comp
    | none => false

/-- Modelled from the spec: the rules context of `rules.rs`. -/
structure RulesContext where
  rules : List Rule
  overwrite : Bool
  break_triggered : Bool
deriving DecidableEq, Repr

/-- Modelled from the spec (§4.4 lookup): the default disposition is
`RENDER`; rules are evaluated in declaration order and the last matching
rule wins. -/
def RulesContext.get_source_action (rc : RulesContext) (p : List String) : RuleAction :=
  rc.rules.foldl (fun acc r => if r.ruleMatches p then r.action else acc) RuleAction.RENDER

/-! ## The action engine (`actions.rs`)

`ActionId::execute` is embedded as a step-indexed interpreter: `none`
means the step budget ran out (the only source of unbounded recursion
in the source is the `Loop` arm's `while` loop), `some (.error e)` is
an `Err` return, `some (.ok s)` a normal return with the updated frame.
The mutable frame `(rules_context, context)` plus the process-global
output streams are threaded as an explicit `ExecState`.

Variants of the Rust enum whose `execute` implementations live entirely
in submodules not among the examined sources and that touch external
collaborators (`Render`, `ForEach`, `Exec`) are not embedded; `Set`,
`For`, `If` and `Rules` are embedded with their submodule semantics
modelled from the spec.
-/

/-- `VariableInfo` (config, not among the examined sources): the declared
default expression is all the embedding needs. -/
structure VariableInfo where
  default : Option String
deriving DecidableEq, Repr

/-- `AnswerInfo` (config, not among the examined sources): the explicit
answer value is all the embedding needs. -/
structure AnswerInfo where
  value : Option String
deriving DecidableEq, Repr

/-- Modelled from the spec (§4.5 `rules`): a rule action either appends a
path rule to the rules context or sets its overwrite flag. -/
inductive RuleType where
  | pathRule (pattern : String) (action : RuleAction) (recursive : Bool)
  | setOverwrite (b : Bool)
deriving DecidableEq, Repr

/-- Modelled from the spec (§4.5 `rules`): apply one rule to the rules
context, mutating it for the remainder of the enclosing scope. -/
def applyRule (rc : RulesContext) : RuleType → RulesContext
  | .pathRule pat act rcv => { rc with rules := rc.rules ++ [⟨pat, act, rcv⟩] }
  | .setOverwrite b => { rc with overwrite := b }

/-- Modelled from the spec: an integer-valued template expression, enough
for `if` conditions (`loop.index`-style variable paths and literals). -/
inductive Expr where
  | lit (n : Int)
  | varPath (segs : List String)
deriving DecidableEq, Repr

/-- Modelled from the spec: an `if` condition — a boolean test over the
rendering context. -/
inductive Cond where
  | litB (b : Bool)
  | ge (a b : Expr)
  | lt (a b : Expr)
deriving DecidableEq, Repr

def evalExpr (c : Ctx) : Expr → Option Int
  | .lit n => some n
  | .varPath segs =>
    match evalVarPath c segs with
    | some (.int n) => some n
    | _ => none

def evalCond (c : Ctx) : Cond → Option Bool
  | .litB b => some b
  | .ge a b =>
    match evalExpr c a, evalExpr c b with
    | some x, some y => some (y ≤ x)
    | _, _ => none
  | .lt a b =>
    match evalExpr c a, evalExpr c b with
    | some x, some y => some (x < y)
    | _, _ => none

/-- `LoopContext` (actions.rs): 1-based `index`, 0-based `index0`. -/
structure LoopContext where
  index : Int
  index0 : Int
deriving DecidableEq, Repr

/-- `LoopContext::new` (actions.rs). -/
def LoopContext.new : LoopContext := { index := 1, index0 := 0 }

/-- `LoopContext::increment` (actions.rs). -/
def LoopContext.increment (lc : LoopContext) : LoopContext :=
  { index := lc.index + 1, index0 := lc.index0 + 1 }

/-- The tagged action tree of `actions.rs` (the embedded subset). -/
inductive ActionId where
  | set (vars : List (String × VariableInfo))
  | scope (children : List ActionId)
  | actions (children : List ActionId)
  | forRange (name : String) (lo hi : Int) (body : List ActionId)
  | loop (children : List ActionId)
  | break_
  | if_ (condition : Cond) (thenActions elseActions : List ActionId)
  | rules (ruleTypes : List RuleType)
  | logTrace (message : String)
  | logDebug (message : String)
  | logInfo (message : String)
  | logWarn (message : String)
  | logError (message : String)
  | print (message : String)
  | display (message : String)

/-- Log levels of the logging sink. -/
inductive LogLevel where
  | trace | debug | info | warn | error
deriving DecidableEq, Repr

/-- An externally observable effect of the action engine. -/
inductive Event where
  | stdout (s : String)
  | stderr (s : String)
  | log (lvl : LogLevel) (s : String)
deriving DecidableEq, Repr

/-- The mutable execution frame (`rules_context`, `context`) together
with the process output streams. -/
structure ExecState where
  ctx : Ctx
  rules : RulesContext
  output : List Event
deriving DecidableEq, Repr

/-- Errors surfaced by the embedded action subset. -/
inductive ExecErr where
  | render (template : String)
  | unresolvedVariable (name : String)
deriving DecidableEq, Repr

/-- Engine configuration visible to the embedded actions. -/
structure EngCfg where
  headless : Bool
  answers : List (String × AnswerInfo)

/-- Modelled from the spec (§4.5 `set`; `set::populate_context` is not
among the examined sources): resolve each declared variable in
declaration order — explicit matching answer, else the default
expression rendered against the current context, else fail (headless
resolution; the interactive prompter is out of scope).  Each resolved
value is inserted into the rendering context. -/
def populate_context (cfg : EngCfg) : List (String × VariableInfo) → Ctx → Except ExecErr Ctx
  | [], c => .ok c
  | (name, vi) :: rest, c =>
    let resolved : Except ExecErr String :=
      match (cfg.answers.lookup name).bind (fun ai => ai.value) with
      | some v => .ok v
      | none =>
        match vi.default with
        | some d =>
          match renderTemplate c d with
          | some r => .ok r
          | none => .error (.render d)
        | none => .error (.unresolvedVariable name)
    match resolved with
    | .error e => .error e
    | .ok v => populate_context cfg rest (ctxInsert name (.str v) c)

/-- Render a message and append one output event (the `Log…`, `Print`
and `Display` arms of `ActionId::execute`). -/
def emit (s : ExecState) (m : String) (mk : String → Event) :
    Option (Except ExecErr ExecState) :=
  match renderTemplate s.ctx m with
  | none => some (.error (.render m))
  | some t => some (.ok { s with output := s.output ++ [mk t] })

mutual

/-- `ActionId::execute` (actions.rs), step-indexed.  The `Scope` and
`Loop` arms execute their children against cloned contexts and restore
the caller's `ctx`/`rules` on return; `Loop` additionally resets
`break_triggered` and threads a `LoopContext` starting at `new`;
`Break` sets `break_triggered` on the current rules context. -/
def exec (cfg : EngCfg) (fuel : Nat) (a : ActionId) (s : ExecState) :
    Option (Except ExecErr ExecState) :=
  match fuel with
  | 0 => none
  | f + 1 =>
    match a with
    | .set vars =>
      match populate_context cfg vars s.ctx with
      | .error e => some (.error e)
      | .ok c => some (.ok { s with ctx := c })
    | .actions children => execList cfg f children s
    | .scope children =>
      match exec cfg f (.actions children) s with
      | none => none
      | some (.error e) => some (.error e)
      | some (.ok s') => some (.ok { s' with ctx := s.ctx, rules := s.rules })
    | .loop children =>
      match execLoop cfg f children LoopContext.new
          { s with rules := { s.rules with break_triggered := false } } with
      | none => none
      | some (.error e) => some (.error e)
      | some (.ok s') => some (.ok { s' with ctx := s.ctx, rules := s.rules })
    | .break_ => some (.ok { s with rules := { s.rules with break_triggered := true } })
    | .if_ cond thens elses =>
      match evalCond s.ctx cond with
      | none => some (.error (.render "if-condition"))
      | some true => exec cfg f (.actions thens) s
      | some false => exec cfg f (.actions elses) s
    | .forRange name lo hi body => execFor cfg f name body lo (hi + 1 - lo).toNat s
    | .rules rts => some (.ok { s with rules := rts.foldl applyRule s.rules })
    | .logTrace m => emit s m (fun t => .log .trace t)
    | .logDebug m => emit s m (fun t => .log .debug t)
    | .logInfo m => emit s m (fun t => .log .info t)
    | .logWarn m => emit s m (fun t => .log .warn t)
    | .logError m => emit s m (fun t => .log .error t)
    | .print m => emit s m (fun t => .stdout t)
    | .display m => emit s m (fun t => .stderr t)
termination_by structural fuel

/-- The `Actions` arm: sequential execution of children; after each
child, `break_triggered` is consulted and, when set, the remaining
children are not executed. -/
def execList (cfg : EngCfg) (fuel : Nat) (l : List ActionId) (s : ExecState) :
    Option (Except ExecErr ExecState) :=
  match l with
  | [] => some (.ok s)
  | a :: rest =>
    match fuel with
    | 0 => none
    | f + 1 =>
      match exec cfg f a s with
      | none => none
      | some (.error e) => some (.error e)
      | some (.ok s') =>
        if s'.rules.break_triggered then some (.ok s')
        else execList cfg f rest s'
termination_by structural fuel

/-- The `while !break_triggered` loop of the `Loop` arm: on each
iteration the `loop` variable is inserted into the (cloned) context and
the body is executed as an `Actions` list, then the loop context is
incremented. -/
def execLoop (cfg : EngCfg) (fuel : Nat) (children : List ActionId)
    (lc : LoopContext) (s : ExecState) : Option (Except ExecErr ExecState) :=
  match fuel with
  | 0 => none
  | f + 1 =>
    if s.rules.break_triggered then some (.ok s)
    else
      match exec cfg f (.actions children)
          { s with ctx := ctxInsert "loop" (.loopCtx lc.index lc.index0) s.ctx } with
      | none => none
      | some (.error e) => some (.error e)
      | some (.ok s2) => execLoop cfg f children lc.increment s2
termination_by structural fuel

/-- Modelled from the spec (§4.5 `for`; `ForAction::execute` is not
among the examined sources): inclusive integer range iteration, the
body seeing `name` bound to the current integer. -/
def execFor (cfg : EngCfg) (fuel : Nat) (name : String) (body : List ActionId)
    (i : Int) (remaining : Nat) (s : ExecState) : Option (Except ExecErr ExecState) :=
  match remaining with
  | 0 => some (.ok s)
  | n + 1 =>
    match fuel with
    | 0 => none
    | f + 1 =>
      match exec cfg f (.actions body) { s with ctx := ctxInsert name (.int i) s.ctx } with
      | none => none
      | some (.error e) => some (.error e)
      | some (.ok s') => execFor cfg f name body (i + 1) n s'
termination_by structural fuel

end

end Archetect

namespace Archetect

/-! ## Fixtures and helper lemmas for the action engine -/

/-- An engine configuration with no answers (headless). -/
def cfg0 : EngCfg := { headless := true, answers := [] }

/-- The initial execution frame: empty rendering context, default rules
context (no rules, `overwrite` false, `break_triggered` false), no output. -/
def st0 : ExecState :=
  { ctx := [], rules := { rules := [], overwrite := false, break_triggered := false },
    output := [] }

/-- Scenario 4 of the spec:
`loop [ if (loop.index >= 3) then break else print "\x7b\x7b loop.index \x7d\x7d" ]`. -/
def loopPrintProg : ActionId :=
  .loop [ .if_ (.ge (.varPath ["loop", "index"]) (.lit 3))
            [.break_]
            [.print "\x7b\x7b loop.index \x7d\x7d"] ]

/-- A loop whose only `break` is nested inside a `scope`. -/
def loopScopeBreak : ActionId := .loop [.scope [.break_]]

/-- With fewer than six steps of budget, executing the one-element list
`[scope [break]]` runs out of fuel. -/
theorem exec_actions_scopeBreak_small (cfg : EngCfg) (s : ExecState) :
    ∀ g, g < 6 → exec cfg g (.actions [.scope [.break_]]) s = none := by
  intro g hg
  interval_cases g <;> rfl

/-- With at least six steps of budget, executing `[scope [break]]`
returns the state unchanged: the `break` fires on the scope's cloned
rules context, which the `Scope` arm discards. -/
theorem exec_actions_scopeBreak_big (cfg : EngCfg) (f : Nat) (s : ExecState) :
    exec cfg (f + 6) (.actions [.scope [.break_]]) s = some (.ok s) := by
  show (match exec cfg (f + 4) (.scope [.break_]) s with
        | none => none
        | some (.error e) => some (.error e)
        | some (.ok s') =>
          if s'.rules.break_triggered then some (.ok s')
          else execList cfg (f + 4) [] s') = some (.ok s)
  have hscope : exec cfg (f + 4) (.scope [.break_]) s = some (.ok s) := rfl
  rw [hscope]
  cases hb : s.rules.break_triggered <;> simp [execList, hb]

/-- The loop whose body is `[scope [break]]` never exits: every
iteration leaves `break_triggered` false on the loop's rules context. -/
theorem execLoop_scopeBreak_none (cfg : EngCfg) :
    ∀ f lc s, s.rules.break_triggered = false →
      execLoop cfg f [.scope [.break_]] lc s = none := by
  intro f
  induction f using Nat.strong_induction_on with
  | _ f ih =>
    intro lc s hb
    match f with
    | 0 => rfl
    | g + 1 =>
      rw [execLoop]
      simp only [hb, Bool.false_eq_true, if_false]
      rcases Nat.lt_or_ge g 6 with h6 | h6
      · rw [exec_actions_scopeBreak_small cfg _ g h6]
      · obtain ⟨k, rfl⟩ : ∃ k, g = k + 6 := ⟨g - 6, by omega⟩
        rw [exec_actions_scopeBreak_big]
        exact ih (k + 6) (by omega) lc.increment _ hb

/-- A loop exiting normally was exited by the `break_triggered` check:
the state it hands back carries the flag. -/
theorem execLoop_ok_break (cfg : EngCfg) :
    ∀ f acts lc s s', execLoop cfg f acts lc s = some (.ok s') →
      s'.rules.break_triggered = true := by
  intro f
  induction f with
  | zero =>
    intro acts lc s s' h
    rw [execLoop] at h
    cases h
  | succ g ih =>
    intro acts lc s s' h
    rw [execLoop] at h
    cases hb : s.rules.break_triggered with
    | true =>
      rw [hb] at h
      simp only [if_true] at h
      cases h
      exact hb
    | false =>
      rw [hb] at h
      simp only [Bool.false_eq_true, if_false] at h
      split at h
      · cases h
      · cases h
      · exact ih acts lc.increment _ s' h

/-- Sequencing lemma for the `Actions` arm: a run of `l1` that ends
without `break_triggered` set continues through `l1 ++ l2` into `l2`
with the remaining budget. -/
theorem execList_append (cfg : EngCfg) :
    ∀ l1 l2 f s s1, execList cfg f l1 s = some (.ok s1) →
      s1.rules.break_triggered = false →
      execList cfg f (l1 ++ l2) s = execList cfg (f - l1.length) l2 s1 := by
  intro l1
  induction l1 with
  | nil =>
    intro l2 f s s1 h _
    rw [execList] at h
    cases h
    simp
  | cons a l1 ih =>
    intro l2 f s s1 h hb
    match f with
    | 0 => rw [execList] at h; cases h
    | g + 1 =>
      rw [execList] at h
      rw [List.cons_append, execList]
      cases hex : exec cfg g a s with
      | none => rw [hex] at h; cases h
      | some v =>
        cases v with
        | error e => rw [hex] at h; cases h
        | ok s' =>
          simp only [hex] at h ⊢
          cases hb' : s'.rules.break_triggered with
          | true =>
            simp only [hb', if_true] at h
            cases h
            rw [hb] at hb'
            cases hb'
          | false =>
            simp only [hb', Bool.false_eq_true, if_false] at h ⊢
            rw [ih l2 g s' s1 h hb]
            simp

/-! ## Claim theorems about the action engine -/

/-- C4.  For every `scope` action, mutations made by its children to the
render context and to the rules context are invisible after the scope
returns: both contexts observed by the caller after executing the scope
equal their values before it (the `Scope` arm executes the children
against cloned contexts and restores the caller's on return, forwarding
nothing — not even `break_triggered`). -/
theorem scope_isolates_contexts (cfg : EngCfg) (f : Nat) (children : List ActionId)
    (s s' : ExecState) (h : exec cfg f (.scope children) s = some (.ok s')) :
    s'.ctx = s.ctx ∧ s'.rules = s.rules := by
  cases f with
  | zero => rw [exec] at h; cases h
  | succ g =>
    rw [exec] at h
    split at h
    · cases h
    · cases h
    · cases h
      exact ⟨rfl, rfl⟩

/-- Witness for C4: a scope whose children mutate the rendering context
(`set`), the rules context (`rules`) and the break flag (`break`); all
mutations are discarded, so the scope returns the initial frame. -/
theorem scope_isolates_contexts_witness : st0.ctx = st0.ctx ∧ st0.rules = st0.rules :=
  scope_isolates_contexts cfg0 10
    [.set [("x", ⟨some "v"⟩)], .rules [.pathRule "*" .SKIP false, .setOverwrite true], .break_]
    st0 st0 (by decide)

/-- C1 counterexample.  The program `loop [scope [break]]` executes a
`break` inside a `scope` nested in a `loop` (second conjunct: the inner
`break` action does execute and sets the flag on the frame it is given),
yet the enclosing loop never terminates (first conjunct): the `Scope`
arm discards the clone carrying `break_triggered`, so no step budget
suffices. -/
theorem loop_scope_break_diverges :
    (¬ ∃ f, exec cfg0 f loopScopeBreak st0 ≠ none) ∧
    exec cfg0 3 (.actions [.break_]) st0 =
      some (.ok { st0 with rules := { st0.rules with break_triggered := true } }) := by
  constructor
  · rintro ⟨f, hf⟩
    apply hf
    match f with
    | 0 => rfl
    | g + 1 =>
      have h1 : execLoop cfg0 g [.scope [.break_]] LoopContext.new
          { st0 with rules := { st0.rules with break_triggered := false } } = none :=
        execLoop_scopeBreak_none cfg0 g LoopContext.new _ rfl
      simp only [loopScopeBreak, exec, h1]
  · decide

/-- C1 (amended).  A `loop` exits normally iff an iteration leaves
`break_triggered` set on the loop's own (cloned) rules context: (1) any
normal exit of the loop's iteration function hands back a state with the
flag set; (2) a `break` directly in the loop body terminates the loop
(and the `Loop` arm restores the caller's contexts, so the caller's
frame is returned unchanged); (3) a `break` nested inside a `scope`
only sets the scope's discarded clone and never terminates the loop. -/
theorem loop_break_semantics :
    (∀ (cfg : EngCfg) f acts lc s s', execLoop cfg f acts lc s = some (.ok s') →
      s'.rules.break_triggered = true) ∧
    (∀ (cfg : EngCfg) (s : ExecState), exec cfg 10 (.loop [.break_]) s = some (.ok s)) ∧
    (∀ (cfg : EngCfg) f lc s, s.rules.break_triggered = false →
      execLoop cfg f [.scope [.break_]] lc s = none) :=
  ⟨fun cfg => execLoop_ok_break cfg,
   fun _ _ => rfl,
   fun cfg => execLoop_scopeBreak_none cfg⟩

/-- Witness for C1 (amended): the scope-nested break leaves the concrete
initial frame looping (no exit within the given budget). -/
theorem loop_break_semantics_witness :
    execLoop cfg0 7 [.scope [.break_]] LoopContext.new st0 = none :=
  loop_break_semantics.2.2 cfg0 7 LoopContext.new st0 (by decide)

/-- C6.  The `loop` variable starts at `index = 1`, `index0 = 0`
(`LoopContext::new`), both fields are incremented by one after each
iteration (`LoopContext::increment`), and the literal scenario-4 program
`loop [ if (loop.index >= 3) then break else print "..." ]` writes
exactly the lines `1` and `2` to stdout and terminates. -/
theorem loop_index_semantics :
    LoopContext.new = { index := 1, index0 := 0 } ∧
    (∀ lc : LoopContext, lc.increment = { index := lc.index + 1, index0 := lc.index0 + 1 }) ∧
    exec cfg0 50 loopPrintProg st0 =
      some (.ok { st0 with output := [.stdout "1", .stdout "2"] }) :=
  ⟨rfl, fun _ => rfl, by decide⟩

/-- C8.  Children of an `actions` list execute sequentially in
declaration order (first conjunct: a run continues through a
concatenation), and `break_triggered` is checked only after each child
completes: the child during which the flag becomes set finishes
executing — the list's final state is exactly that child's final state —
and no subsequent child is executed, whatever follows (second conjunct,
with arbitrary remaining children `rest`). -/
theorem actions_sequential_break (cfg : EngCfg) :
    (∀ l1 l2 f s s1, execList cfg f l1 s = some (.ok s1) →
        s1.rules.break_triggered = false →
        execList cfg f (l1 ++ l2) s = execList cfg (f - l1.length) l2 s1) ∧
    (∀ f l1 a rest s s1 s2, execList cfg f l1 s = some (.ok s1) →
        s1.rules.break_triggered = false →
        exec cfg (f - l1.length - 1) a s1 = some (.ok s2) →
        s2.rules.break_triggered = true →
        execList cfg f (l1 ++ a :: rest) s = some (.ok s2)) := by
  refine ⟨execList_append cfg, ?_⟩
  intro f l1 a rest s s1 s2 h1 hb1 h2 hb2
  rw [execList_append cfg l1 (a :: rest) f s s1 h1 hb1]
  match hm : f - l1.length with
  | 0 =>
    rw [hm] at h2
    simp only [Nat.zero_sub] at h2
    rw [exec] at h2
    cases h2
  | k + 1 =>
    have hk : f - l1.length - 1 = k := by omega
    rw [hk] at h2
    rw [execList]
    simp only [h2, hb2, if_true]

/-- Witness for C8: in `[print "a"] ++ break :: [print "c"]`, the
`print "a"` child completes, the `break` child completes and sets the
flag, and `print "c"` is never executed: the final output is `["a"]`. -/
theorem actions_sequential_break_witness :
    execList cfg0 10 ([.print "a"] ++ .break_ :: [.print "c"]) st0 =
      some (.ok { st0 with rules := { st0.rules with break_triggered := true },
                           output := [.stdout "a"] }) :=
  (actions_sequential_break cfg0).2 10 [.print "a"] .break_ [.print "c"] st0
    { st0 with output := [.stdout "a"] }
    { st0 with rules := { st0.rules with break_triggered := true }, output := [.stdout "a"] }
    (by decide) (by decide) (by decide) (by decide)

end Archetect

namespace Archetect

/-! ## The path/file renderer (core.rs)

`Archetect::render_directory` walks a source directory tree; the
destination filesystem is modelled as a list of written files (most
recent write first, matching `File::create` truncation) together with
the set of created directories.  Source entries carry their name (the
final path component) and, for files, their raw contents.
-/

/-- `RenderError` (core.rs): the offending path or literal template. -/
inductive RenderError where
  | stringRender (template : String)
  | fileRender (path : List String)
  | pathRender (path : List String)
deriving DecidableEq, Repr

/-- A source tree entry as seen by `fs::read_dir`: a regular file with
raw contents, or a directory with its entries in enumeration order. -/
inductive SrcEntry where
  | file (name : String) (contents : String)
  | dir (name : String) (entries : List SrcEntry)

/-- The destination filesystem: written files (most recent first) and
created directories. -/
structure DFs where
  files : List (List String × String)
  dirs : List (List String)
deriving DecidableEq, Repr

/-- The contents currently at a destination path. -/
def lookupFile (p : List String) (fs : DFs) : Option String :=
  fs.files.lookup p

/-- `Path::exists` on the destination. -/
def dfsExists (p : List String) (fs : DFs) : Bool :=
  (lookupFile p fs).isSome || fs.dirs.contains p

/-- `Archetect::write_contents` — `File::create` truncates, so the new
contents shadow whatever the path held. -/
def write_contents (dest : List String) (contents : String) (fs : DFs) : DFs :=
  { fs with files := (dest, contents) :: fs.files }

/-- `Archetect::copy_contents` — `fs::copy` writes the source file's raw
bytes to the destination, overwriting unconditionally. -/
def copy_contents (srcContents : String) (dest : List String) (fs : DFs) : DFs :=
  write_contents dest srcContents fs

/-- `fs::create_dir_all` on a destination directory. -/
def create_dir_all (dest : List String) (fs : DFs) : DFs :=
  { fs with dirs := dest :: fs.dirs }

/-- `Archetect::render_contents` — render a source file's contents as a
template against the context. -/
def render_contents (path : List String) (contents : String) (c : Ctx) :
    Except RenderError String :=
  match renderTemplate c contents with
  | some r => .ok r
  | none => .error (.fileRender path)

/-- `Path::file_name`, falling back to the whole path (`as_os_str`)
when there is no final component. -/
def fileNameOf (p : List String) : String :=
  match p.getLast? with
  | some n => n
  | none => ""

/-- `Archetect::render_path` — render only the final component of the
source entry through the template engine. -/
def render_path (path : List String) (c : Ctx) : Except RenderError String :=
  match renderTemplate c (fileNameOf path) with
  | some r => .ok r
  | none => .error (.pathRender path)

/-- `Archetect::render_destination` — the parent destination joined with
the rendering of the child's final component. -/
def render_destination (parent child : List String) (c : Ctx) :
    Except RenderError (List String) :=
  match render_path child c with
  | .ok name => .ok (parent ++ [name])
  | .error e => .error e

/-- The regular-file dispatch of `Archetect::render_directory`:
`RENDER` renders and writes when the destination does not exist,
renders and overwrites when it exists and `overwrite` is set, and
otherwise preserves the destination; `COPY` byte-copies
unconditionally; `SKIP` has no filesystem effect. -/
def processFile (c : Ctx) (overwrite : Bool) (action : RuleAction)
    (srcPath : List String) (srcContents : String) (dest : List String)
    (fs : DFs) : Except RenderError DFs :=
  match action with
  | .RENDER =>
    if !(dfsExists dest fs) then
      match render_contents srcPath srcContents c with
      | .ok contents => .ok (write_contents dest contents fs)
      | .error e => .error e
    else if overwrite then
      match render_contents srcPath srcContents c with
      | .ok contents => .ok (write_contents dest contents fs)
      | .error e => .error e
    else .ok fs
  | .COPY => .ok (copy_contents srcContents dest fs)
  | .SKIP => .ok fs

mutual

/-- One entry of `Archetect::render_directory`'s walk: the disposition
is computed from the rules context on the source path; a directory
entry is created at the rendered destination and recursed into (the
computed disposition is not consulted); a file entry dispatches on the
disposition. -/
def renderEntry (c : Ctx) (rc : RulesContext) (srcPath destPath : List String)
    (e : SrcEntry) (fs : DFs) : Except RenderError DFs :=
  match e with
  | .file name contents =>
    let path := srcPath ++ [name]
    let action := rc.get_source_action path
    match render_destination destPath path c with
    | .error err => .error err
    | .ok dest => processFile c rc.overwrite action path contents dest fs
  | .dir name entries =>
    let path := srcPath ++ [name]
    let _action := rc.get_source_action path
    match render_destination destPath path c with
    | .error err => .error err
    | .ok dest => render_directory c rc path dest entries (create_dir_all dest fs)

/-- `Archetect::render_directory`: walk the source entries in
enumeration order, threading the destination filesystem. -/
def render_directory (c : Ctx) (rc : RulesContext) (srcPath destPath : List String)
    (entries : List SrcEntry) (fs : DFs) : Except RenderError DFs :=
  match entries with
  | [] => .ok fs
  | e :: rest =>
    match renderEntry c rc srcPath destPath e fs with
    | .error err => .error err
    | .ok fs' => render_directory c rc srcPath destPath rest fs'

end

end Archetect

namespace Archetect

/-! ## Helper lemmas and claim theorems for the renderer -/

/-- The final component of `l ++ [a]` is `a`. -/
theorem fileNameOf_append (l : List String) (a : String) :
    fileNameOf (l ++ [a]) = a := by
  simp [fileNameOf, List.getLast?_concat]

/-- A write to a fresh destination does not disturb the contents seen at
any other path. -/
theorem lookupFile_write_ne (q dest : List String) (t : String) (fs : DFs)
    (hne : q ≠ dest) : lookupFile q (write_contents dest t fs) = lookupFile q fs := by
  have hbe : (q == dest) = false := beq_eq_false_iff_ne.mpr hne
  simp [lookupFile, write_contents, List.lookup, hbe]

/-- An existing file is at a different path from a destination that does
not exist. -/
theorem ne_of_exists_lookup (q dest : List String) (co : String) (fs : DFs)
    (hdest : dfsExists dest fs = false) (hq : lookupFile q fs = some co) :
    q ≠ dest := by
  intro hqe
  subst hqe
  simp [dfsExists, hq] at hdest

/-- Creating a directory leaves file contents untouched. -/
theorem lookupFile_create_dir (q dest : List String) (fs : DFs) :
    lookupFile q (create_dir_all dest fs) = lookupFile q fs := rfl

mutual

/-- With `overwrite` off and no `COPY` disposition in force, one step of
the walk never changes the contents of an already existing file. -/
theorem renderEntry_preserves (c : Ctx) (rc : RulesContext) (sp dp : List String)
    (e : SrcEntry) (fs fs' : DFs) (q : List String) (co : String)
    (hov : rc.overwrite = false)
    (hnc : ∀ p, rc.get_source_action p ≠ .COPY)
    (h : renderEntry c rc sp dp e fs = .ok fs')
    (hq : lookupFile q fs = some co) : lookupFile q fs' = some co := by
  cases e with
  | file name contents =>
    rw [renderEntry] at h
    split at h
    · cases h
    · rename_i dest hdest
      rw [hov] at h
      cases hact : rc.get_source_action (sp ++ [name]) with
      | COPY => exact absurd hact (hnc _)
      | SKIP =>
        rw [hact] at h
        rw [processFile] at h
        cases h
        exact hq
      | RENDER =>
        rw [hact] at h
        rw [processFile] at h
        cases hex : dfsExists dest fs with
        | false =>
          rw [hex] at h
          simp only [Bool.not_false, if_true] at h
          split at h
          · rename_i t hren
            cases h
            rw [lookupFile_write_ne q dest t fs (ne_of_exists_lookup q dest co fs hex hq)]
            exact hq
          · cases h
        | true =>
          rw [hex] at h
          simp only [Bool.not_true, Bool.false_eq_true, if_false] at h
          cases h
          exact hq
  | dir name entries =>
    rw [renderEntry] at h
    split at h
    · cases h
    · rename_i dest hdest
      exact render_directory_preserves c rc (sp ++ [name]) dest entries
        (create_dir_all dest fs) fs' q co hov hnc h hq

/-- With `overwrite` off and no `COPY` disposition in force, the whole
walk never changes the contents of an already existing file. -/
theorem render_directory_preserves (c : Ctx) (rc : RulesContext) (sp dp : List String)
    (entries : List SrcEntry) (fs fs' : DFs) (q : List String) (co : String)
    (hov : rc.overwrite = false)
    (hnc : ∀ p, rc.get_source_action p ≠ .COPY)
    (h : render_directory c rc sp dp entries fs = .ok fs')
    (hq : lookupFile q fs = some co) : lookupFile q fs' = some co := by
  cases entries with
  | nil =>
    rw [render_directory] at h
    cases h
    exact hq
  | cons e rest =>
    rw [render_directory] at h
    split at h
    · cases h
    · rename_i fs1 h1
      exact render_directory_preserves c rc sp dp rest fs1 fs' q co hov hnc h
        (renderEntry_preserves c rc sp dp e fs fs1 q co hov hnc h1 hq)

end

/-- C5.  Under the `RENDER` disposition: when the destination does not
exist, the rendered contents are written; when it exists and
`overwrite` is set, it is overwritten with the rendered contents; when
it exists and `overwrite` is off, the filesystem is returned untouched
(first conjunct, per-file dispatch).  Consequently, with
`overwrite = false` and no `COPY` disposition in force, a whole
directory walk never modifies the contents of an existing destination
file (second conjunct). -/
theorem render_disposition_collision :
    (∀ (c : Ctx) (ow : Bool) (srcPath : List String) (srcContents : String)
        (dest : List String) (fs : DFs),
      (dfsExists dest fs = false →
        processFile c ow .RENDER srcPath srcContents dest fs =
          Except.map (fun t => write_contents dest t fs)
            (render_contents srcPath srcContents c)) ∧
      (dfsExists dest fs = true → ow = true →
        processFile c ow .RENDER srcPath srcContents dest fs =
          Except.map (fun t => write_contents dest t fs)
            (render_contents srcPath srcContents c)) ∧
      (dfsExists dest fs = true → ow = false →
        processFile c ow .RENDER srcPath srcContents dest fs = .ok fs)) ∧
    (∀ (c : Ctx) (rc : RulesContext) (sp dp : List String) (entries : List SrcEntry)
        (fs fs' : DFs) (q : List String) (co : String),
      rc.overwrite = false → (∀ p, rc.get_source_action p ≠ .COPY) →
      render_directory c rc sp dp entries fs = .ok fs' →
      lookupFile q fs = some co → lookupFile q fs' = some co) := by
  constructor
  · intro c ow srcPath srcContents dest fs
    refine ⟨?_, ?_, ?_⟩
    · intro hex
      rw [processFile, hex]
      cases hr : render_contents srcPath srcContents c <;>
        simp [Except.map, hr]
    · intro hex how
      rw [processFile, hex, how]
      cases hr : render_contents srcPath srcContents c <;>
        simp [Except.map, hr]
    · intro hex how
      rw [processFile, hex, how]
      simp
  · intro c rc sp dp entries fs fs' q co hov hnc h hq
    exact render_directory_preserves c rc sp dp entries fs fs' q co hov hnc h hq

/-- A destination filesystem already holding `d/a.txt` with contents
`OLD`. -/
def dfsOld : DFs := { files := [(["d", "a.txt"], "OLD")], dirs := [["d"]] }

/-- A rules context with no rules and `overwrite` off. -/
def rcDefault : RulesContext := { rules := [], overwrite := false, break_triggered := false }

/-- Witness for C5: rendering `a.txt` into a destination that already
holds `a.txt` with contents `OLD`, with `overwrite` off, leaves the
destination byte-for-byte intact. -/
theorem render_disposition_collision_witness :
    lookupFile ["d", "a.txt"] dfsOld = some "OLD" :=
  render_disposition_collision.2 [] rcDefault
    ["s"] ["d"] [.file "a.txt" "NEW"] dfsOld dfsOld
    ["d", "a.txt"] "OLD" rfl
    (fun p => by simp [rcDefault, RulesContext.get_source_action])
    (by decide) (by decide)

/-- C9.  The computed destination is the parent destination joined with
the rendering of only the entry's final path component (first conjunct:
the destination is `render_path`'s result appended to the parent;
second conjunct: entries sharing a final component render to the same
destination, whatever their other components); and when the component
contains no template expression the appended name is the original
component byte-for-byte (third conjunct). -/
theorem path_rendering_final_component (parent child other : List String) (c : Ctx)
    (hsame : fileNameOf child = fileNameOf other)
    (hplain : noTemplateExpr (fileNameOf child) = true) :
    render_destination parent child c =
      Except.map (fun n => parent ++ [n]) (render_path child c) ∧
    render_destination parent child c = render_destination parent other c ∧
    render_destination parent child c = .ok (parent ++ [fileNameOf child]) := by
  refine ⟨?_, ?_, ?_⟩
  · unfold render_destination
    cases hr : render_path child c <;> simp [Except.map]
  · have hplain' : noTemplateExpr (fileNameOf other) = true := hsame ▸ hplain
    simp [render_destination, render_path, hsame,
      renderTemplate_noExpr c _ hplain']
  · simp [render_destination, render_path, renderTemplate_noExpr c _ hplain]

/-- Witness for C9: `b.txt` in two different directories renders to the
same appended name, and the substitution-free component is preserved
byte-for-byte. -/
theorem path_rendering_final_component_witness :
    render_destination ["out"] ["a", "b.txt"] [] =
      Except.map (fun n => ["out"] ++ [n]) (render_path ["a", "b.txt"] []) ∧
    render_destination ["out"] ["a", "b.txt"] [] =
      render_destination ["out"] ["x", "y", "b.txt"] [] ∧
    render_destination ["out"] ["a", "b.txt"] [] =
      .ok (["out"] ++ [fileNameOf ["a", "b.txt"]]) :=
  path_rendering_final_component ["out"] ["a", "b.txt"] ["x", "y", "b.txt"] []
    (by decide) (by decide)

/-- C10.  A directory entry is always created at the rendered
destination and recursed into, for every rules context — hence in
particular when a `SKIP` or `COPY` rule matches the directory: the
disposition computed from the rules context is applied only to regular
files. -/
theorem dir_entries_ignore_disposition (c : Ctx) (rc : RulesContext)
    (srcPath destPath : List String) (name : String) (children : List SrcEntry)
    (fs : DFs) (n : String)
    (hren : renderTemplate c name = some n) :
    renderEntry c rc srcPath destPath (.dir name children) fs =
      render_directory c rc (srcPath ++ [name]) (destPath ++ [n]) children
        (create_dir_all (destPath ++ [n]) fs) ∧
    (destPath ++ [n]) ∈ (create_dir_all (destPath ++ [n]) fs).dirs := by
  constructor
  · rw [renderEntry]
    simp [render_destination, render_path, fileNameOf_append, hren]
  · simp [create_dir_all]

/-- A rules context whose only rule sends the component `sub` to
`SKIP`. -/
def rcSkipSub : RulesContext :=
  { rules := [⟨"sub", .SKIP, false⟩], overwrite := false, break_triggered := false }

/-- The empty destination filesystem. -/
def dfs0 : DFs := { files := [], dirs := [] }

/-- Witness for C10: a `SKIP` rule matches the directory `sub`, yet the
destination directory is created and its child file is rendered. -/
theorem dir_entries_ignore_disposition_witness :
    RulesContext.get_source_action rcSkipSub (["src"] ++ ["sub"]) = .SKIP ∧
    renderEntry [] rcSkipSub ["src"] ["out"]
        (.dir "sub" [.file "f.txt" "hello"]) dfs0 =
      render_directory [] rcSkipSub (["src"] ++ ["sub"]) (["out"] ++ ["sub"])
        [.file "f.txt" "hello"] (create_dir_all (["out"] ++ ["sub"]) dfs0) ∧
    (["out"] ++ ["sub"]) ∈ (create_dir_all (["out"] ++ ["sub"]) dfs0).dirs := by
  refine ⟨by decide, ?_, ?_⟩
  · exact (dir_entries_ignore_disposition [] rcSkipSub ["src"] ["out"] "sub"
      [.file "f.txt" "hello"] dfs0 "sub" (by decide)).1
  · exact (dir_entries_ignore_disposition [] rcSkipSub ["src"] ["out"] "sub"
      [.file "f.txt" "hello"] dfs0 "sub" (by decide)).2

end Archetect

namespace Archetect

/-! ## The source resolver (source.rs)

`Source::detect` classifies a location string and materializes it.  Its
external collaborators — the real filesystem, the `git` binary, the
`url` and `shellexpand` crates, the farmhash fingerprint and the
`Requirements` loader — are supplied as oracles; the process-wide
`CACHED_PATHS` set, the filesystem view and the log of issued git
subprocesses are threaded as an explicit `World`.  Paths are modelled
as strings. -/

/-- `SourceError` (source.rs). -/
inductive SourceError where
  | SourceUnsupported (s : String)
  | NoDefaultBranch
  | SourceNotFound (s : String)
  | SourceInvalidPath (s : String)
  | SourceInvalidEncoding (s : String)
  | RemoteSourceError (s : String)
  | OfflineAndNotCached (s : String)
  | IoError
  | RequirementsError (path : String)
deriving DecidableEq, Repr

/-- `Source` (source.rs). -/
inductive Source where
  | RemoteGit (url : String) (path : String) (gitref : Option String)
  | RemoteHttp (url : String) (path : String)
  | LocalDirectory (path : String)
  | LocalFile (path : String)
deriving DecidableEq, Repr

/-- `Source::local_path` (source.rs). -/
def Source.local_path : Source → String
  | .RemoteGit _ p _ => p
  | .RemoteHttp _ p => p
  | .LocalDirectory p => p
  | .LocalFile p => p

/-- Whitespace, as the regex class `\S` excludes it. -/
def isSpaceC (c : Char) : Bool := c = ' ' ∨ c = '\t' ∨ c = '\n' ∨ c = '\r'

/-- Split a non-empty character run at its last colon. -/
def lastColonSplit : List Char → Option (List Char × List Char)
  | [] => none
  | c :: rest =>
    match lastColonSplit rest with
    | some (a, b) => some (c :: a, b)
    | none => if c = ':' then some ([], rest) else none

/-- Scanner for `SSH_GIT_PATTERN = \S+@(\S+):(.*)` (source.rs): an `@`
preceded by a non-space character and followed by a non-space run with
a colon after at least one character; the captures are the host (up to
the last such colon, greedy `\S+`) and the remainder. -/
def sshScanAux : Char → List Char → Option (String × String)
  | _, [] => none
  | prev, c :: rest =>
    if c = '@' ∧ ¬ isSpaceC prev then
      let run := rest.takeWhile (fun x => !(isSpaceC x))
      let tail := rest.dropWhile (fun x => !(isSpaceC x))
      match lastColonSplit run with
      | some (host, after) =>
        if host ≠ [] then some (String.mk host, String.mk (after ++ tail))
        else sshScanAux c rest
      | none => sshScanAux c rest
    else sshScanAux c rest

/-- `SSH_GIT_PATTERN.captures` (source.rs): the host and path captures,
or `none` when the pattern does not match. -/
def sshCaptures (s : String) : Option (String × String) :=
  sshScanAux ' ' s.toList

/-- Split a string on a separator character (`str::split`). -/
def splitOnCharAux (sep : Char) (cur : List Char) : List Char → List String
  | [] => [String.mk cur.reverse]
  | c :: rest =>
    if c = sep then String.mk cur.reverse :: splitOnCharAux sep [] rest
    else splitOnCharAux sep (c :: cur) rest

/-- `path.split('#')` of `Source::detect`. -/
def splitHash (s : String) : List String := splitOnCharAux '#' [] s.toList

/-- Substring test on character lists. -/
def containsSub (needle : List Char) : List Char → Bool
  | [] => decide (needle = [])
  | c :: t => needle.isPrefixOf (c :: t) || containsSub needle t

/-- `str::contains` (used for the `.git` test of `Source::detect`). -/
def containsStr (hay sub : String) : Bool := containsSub sub.toList hay.toList

/-- The observable result of `Url::parse` — the `url` crate is an
external collaborator, supplied as an oracle: host, path, fragment and
`to_file_path`. -/
structure UrlParts where
  host : Option String
  upath : String
  fragment : Option String
  toFilePath : Option String

/-- A git subprocess invocation issued by the resolver (the read-only
`show-ref` probes are modelled purely through the oracle). -/
inductive GitCmd where
  | clone (url dest : String)
  | fetch (dest : String)
  | checkout (dest spec : String)
deriving DecidableEq, Repr

/-- Oracle for the external `git` binary: success of each subprocess
and the `show-ref` branch-existence probe. -/
structure GitO where
  cloneOk : String → String → Bool
  fetchOk : String → Bool
  isBranch : String → String → Bool
  checkoutOk : String → String → Bool

/-- Oracle view of the real filesystem. -/
structure FsO where
  pathExists : String → Bool
  isDir : String → Bool

/-- Modelled from the spec (§6, git subprocess contract): a successful
`git clone <url> <dest>` materializes a working-copy directory at
`dest`. -/
def fsAddDir (dest : String) (fs : FsO) : FsO :=
  { pathExists := fun p => p == dest || fs.pathExists p,
    isDir := fun p => p == dest || fs.isDir p }

/-- The mutable world threaded through resolution: the filesystem view,
the process-wide `CACHED_PATHS` set, and the log of git subprocesses
issued so far. -/
structure World where
  fs : FsO
  cached : List String
  gitLog : List GitCmd

/-- The oracles for the external collaborators of `Source::detect`. -/
structure ResolveEnv where
  git : GitO
  urlParse : String → Option UrlParts
  shellExpand : String → Option String
  hash64 : String → Nat
  reqLoadErr : String → Bool
  reqVerifyFail : String → Bool

/-- The engine attributes `Source::detect` consults: the `offline` flag
and the layout's git cache directory. -/
structure ArchCfg where
  offline : Bool
  gitCacheDir : String

/-- `get_cache_hash`/`get_cache_key` (source.rs): the decimal rendering
of the 64-bit farmhash fingerprint (the hash function itself is an
external crate, supplied as an oracle and truncated to 64 bits). -/
def get_cache_key (env : ResolveEnv) (input : String) : String :=
  toString (env.hash64 input % 2 ^ 64)

/-- `PathBuf::join` for string paths (the joined component is relative). -/
def joinPath (a b : String) : String := a ++ "/" ++ b

/-- `PathBuf::is_relative`, unix model: not starting with `/`. -/
def isRelativePath (p : String) : Bool :=
  match p.toList with
  | [] => true
  | c :: _ => c ≠ '/'

/-- `verify_requirements` (source.rs): a loading failure carries the
local path, a verification failure carries the originating source
string; the `Requirements` loader is an external module supplied as an
oracle. -/
def verify_requirements (env : ResolveEnv) (source p : String) :
    Except SourceError Unit :=
  if env.reqLoadErr p then .error (.RequirementsError p)
  else if env.reqVerifyFail p then .error (.RequirementsError source)
  else .ok ()

/-- `find_default_branch` (source.rs): the first of `develop`, `main`,
`master` whose `refs/remotes/origin/<name>` exists. -/
def find_default_branch (git : GitO) (dest : String) : Except SourceError String :=
  if git.isBranch dest "develop" then .ok "develop"
  else if git.isBranch dest "main" then .ok "main"
  else if git.isBranch dest "master" then .ok "master"
  else .error .NoDefaultBranch

/-- The clone/fetch phase of `cache_git_repo` (source.rs): a cache miss
clones unless `offline` or the URL was already touched this process
(then it fails with `OfflineAndNotCached`); a cache hit fetches when
online and untouched.  The `CACHED_PATHS` insertion happens only when
`offline` is false, mirroring the short-circuit `!offline && insert`. -/
def cgrFetchClone (git : GitO) (url dest : String) (offline : Bool) (w : World) :
    Except SourceError Unit × World :=
  if !(w.fs.pathExists dest) then
    if !offline && !(w.cached.contains url) then
      let w1 := { w with cached := url :: w.cached,
                         gitLog := w.gitLog ++ [.clone url dest] }
      if git.cloneOk url dest then (.ok (), { w1 with fs := fsAddDir dest w1.fs })
      else (.error (.RemoteSourceError "git clone failed"), w1)
    else (.error (.OfflineAndNotCached url), w)
  else
    if !offline && !(w.cached.contains url) then
      let w1 := { w with cached := url :: w.cached,
                         gitLog := w.gitLog ++ [.fetch dest] }
      if git.fetchOk dest then (.ok (), w1)
      else (.error (.RemoteSourceError "git fetch failed"), w1)
    else (.ok (), w)

/-- The ref-resolution/checkout phase of `cache_git_repo` (source.rs):
the caller's ref, else the default branch; a known remote branch is
checked out as `origin/<ref>`, anything else literally. -/
def cgrCheckout (git : GitO) (gitref : Option String) (dest : String) (w : World) :
    Except SourceError Unit × World :=
  match (match gitref with
         | some r => Except.ok r
         | none => find_default_branch git dest) with
  | .error e => (.error e, w)
  | .ok r =>
    let gitref_spec := if git.isBranch dest r then "origin/" ++ r else r
    let w2 := { w with gitLog := w.gitLog ++ [.checkout dest gitref_spec] }
    if git.checkoutOk dest gitref_spec then (.ok (), w2)
    else (.error (.RemoteSourceError "git checkout failed"), w2)

/-- `cache_git_repo` (source.rs): clone/fetch, then resolve the ref and
check it out. -/
def cache_git_repo (git : GitO) (url : String) (gitref : Option String)
    (dest : String) (offline : Bool) (w : World) :
    Except SourceError Unit × World :=
  match cgrFetchClone git url dest offline w with
  | (.error e, w') => (.error e, w')
  | (.ok _, w') => cgrCheckout git gitref dest w'

/-- The remote-git arm of `Source::detect` (shared by the SSH-short and
URL classifications): cache the repository, verify requirements, and
return a `RemoteGit` over the cache path. -/
def detectGitBranch (env : ResolveEnv) (path first : String) (gitref : Option String)
    (cache_path : String) (offline : Bool) (w : World) :
    Except SourceError Source × World :=
  match cache_git_repo env.git first gitref cache_path offline w with
  | (.error e, w') => (.error e, w')
  | (.ok _, w') =>
    match verify_requirements env path cache_path with
    | .error e => (.error e, w')
    | .ok _ => (.ok (.RemoteGit path cache_path gitref), w')

/-- The `file://` arm of `Source::detect`: the resolved local path must
exist; it is classified as a `LocalDirectory`. -/
def detectFileUrl (env : ResolveEnv) (w : World) (source lp : String) :
    Except SourceError Source × World :=
  if w.fs.pathExists lp then
    match verify_requirements env source lp with
    | .error e => (.error e, w)
    | .ok _ => (.ok (.LocalDirectory lp), w)
  else (.error (.SourceNotFound lp), w)

/-- The shell-expanded general branch of `Source::detect`: an existing
directory (after requirements verification) or an existing regular
file; a missing path is `SourceNotFound`. -/
def detectLocalGeneral (env : ResolveEnv) (w : World) (source lp : String) :
    Except SourceError Source × World :=
  if w.fs.pathExists lp then
    if w.fs.isDir lp then
      match verify_requirements env source lp with
      | .error e => (.error e, w)
      | .ok _ => (.ok (.LocalDirectory lp), w)
    else (.ok (.LocalFile lp), w)
  else (.error (.SourceNotFound lp), w)

/-- The shell-expanded branch of `Source::detect`: a relative path with
a parent Source resolves against the parent's local path and must be an
existing directory; otherwise the general branch applies. -/
def detectLocal (env : ResolveEnv) (w : World) (source : String)
    (relative_to : Option Source) : Except SourceError Source × World :=
  match env.shellExpand source with
  | none => (.error (.SourceInvalidPath source), w)
  | some lp =>
    if isRelativePath lp then
      match relative_to with
      | some parent =>
        let joined := joinPath parent.local_path lp
        if w.fs.pathExists joined && w.fs.isDir joined then
          match verify_requirements env source joined with
          | .error e => (.error e, w)
          | .ok _ => (.ok (.LocalDirectory joined), w)
        else (.error (.SourceNotFound joined), w)
      | none => detectLocalGeneral env w source lp
    else detectLocalGeneral env w source lp

/-- `Source::detect` (source.rs): SSH-short git, then URL-parsable
remote git or `file://` path, then shell-expanded local path. -/
def detect (env : ResolveEnv) (arch : ArchCfg) (path : String)
    (relative_to : Option Source) (w : World) :
    Except SourceError Source × World :=
  let urlparts := splitHash path
  let first := urlparts.headD path
  match sshCaptures first with
  | some (host, cpath) =>
    detectGitBranch env path first
      (if urlparts.length > 1 then urlparts.get? 1 else none)
      (joinPath arch.gitCacheDir (get_cache_key env (host ++ "/" ++ cpath)))
      arch.offline w
  | none =>
    match env.urlParse path with
    | some url =>
      if containsStr path ".git" && url.host.isSome then
        detectGitBranch env path first url.fragment
          (joinPath arch.gitCacheDir
            (get_cache_key env (url.host.getD "" ++ "/" ++ url.upath)))
          arch.offline w
      else
        match url.toFilePath with
        | some lp => detectFileUrl env w path lp
        | none => detectLocal env w path relative_to
    | none => detectLocal env w path relative_to

end Archetect

namespace Archetect

/-! ## Fixtures and helper lemmas for the source resolver -/

/-- A filesystem with nothing on it. -/
def fsNone : FsO :=
  { pathExists := fun _ => false, isDir := fun _ => false }

/-- A git oracle on which every subprocess fails. -/
def gitNone : GitO :=
  { cloneOk := fun _ _ => false, fetchOk := fun _ => false,
    isBranch := fun _ _ => false, checkoutOk := fun _ _ => false }

/-- Oracles for a host with no parseable URLs, identity shell expansion,
and no requirements files. -/
def envL : ResolveEnv :=
  { git := gitNone, urlParse := fun _ => none,
    shellExpand := fun s => some s, hash64 := fun _ => 0,
    reqLoadErr := fun _ => false, reqVerifyFail := fun _ => false }

/-- An empty world. -/
def wEmpty : World := { fs := fsNone, cached := [], gitLog := [] }

/-- A filesystem holding exactly one regular file `/parent/f.txt`. -/
def fsFileOnly : FsO :=
  { pathExists := fun p => p == "/parent/f.txt", isDir := fun _ => false }

/-- A world over `fsFileOnly`. -/
def wFile : World := { fs := fsFileOnly, cached := [], gitLog := [] }

/-- A filesystem holding exactly one directory `/parent/sub`. -/
def fsDirOnly : FsO :=
  { pathExists := fun p => p == "/parent/sub", isDir := fun p => p == "/parent/sub" }

/-- A world over `fsDirOnly`. -/
def wDir : World := { fs := fsDirOnly, cached := [], gitLog := [] }

/-- The SSH-short cache destination computed by `Source::detect`. -/
def sshCachePath (env : ResolveEnv) (arch : ArchCfg) (host cpath : String) : String :=
  joinPath arch.gitCacheDir (get_cache_key env (host ++ "/" ++ cpath))

/-- A successful clone/fetch phase leaves the cache destination existing
on the filesystem: either it already existed, or the clone materialized
it. -/
theorem cgrFetchClone_ok_exists (git : GitO) (url dest : String) (offline : Bool)
    (w : World) (h : (cgrFetchClone git url dest offline w).1 = .ok ()) :
    (cgrFetchClone git url dest offline w).2.fs.pathExists dest = true := by
  unfold cgrFetchClone at h ⊢
  cases hex : w.fs.pathExists dest with
  | false =>
    simp only [hex, Bool.not_false, if_true] at h ⊢
    cases hc : (!offline && !(w.cached.contains url)) with
    | false => simp only [hc, Bool.false_eq_true, if_false] at h; cases h
    | true =>
      simp only [hc, if_true] at h ⊢
      cases hcl : git.cloneOk url dest with
      | false => simp only [hcl, Bool.false_eq_true, if_false] at h; cases h
      | true => simp [hcl, fsAddDir]
  | true =>
    simp only [hex, Bool.not_true, Bool.false_eq_true, if_false] at h ⊢
    cases hc : (!offline && !(w.cached.contains url)) with
    | false => simp only [hc, Bool.false_eq_true, if_false]; exact hex
    | true =>
      simp only [hc, if_true] at h ⊢
      cases hf : git.fetchOk dest with
      | false => simp only [hf, Bool.false_eq_true, if_false] at h; cases h
      | true => simp only [hf, if_true]; exact hex

/-- The checkout phase never touches the filesystem view. -/
theorem cgrCheckout_fs (git : GitO) (gitref : Option String) (dest : String) (w : World) :
    (cgrCheckout git gitref dest w).2.fs = w.fs := by
  unfold cgrCheckout
  split
  · rfl
  · dsimp only
    split <;> first
      | rfl
      | (split <;> rfl)

/-- The checkout phase only appends to the git log. -/
theorem cgrCheckout_log (git : GitO) (gitref : Option String) (dest : String) (w : World) :
    ∃ extra, (cgrCheckout git gitref dest w).2.gitLog = w.gitLog ++ extra := by
  unfold cgrCheckout
  split
  · exact ⟨[], by simp⟩
  · dsimp only
    split <;> first
      | exact ⟨_, rfl⟩
      | (split <;> exact ⟨_, rfl⟩)

/-- A command already in the log stays in the log through the checkout
phase. -/
theorem cgrCheckout_log_mem (git : GitO) (gitref : Option String) (dest : String)
    (w : World) (cmd : GitCmd) (h : cmd ∈ w.gitLog) :
    cmd ∈ (cgrCheckout git gitref dest w).2.gitLog := by
  obtain ⟨extra, hlog⟩ := cgrCheckout_log git gitref dest w
  rw [hlog]
  exact List.mem_append_left _ h

/-- The checkout phase never fails with `OfflineAndNotCached`. -/
theorem cgrCheckout_not_offline (git : GitO) (gitref : Option String) (dest : String)
    (w : World) (u : String) :
    (cgrCheckout git gitref dest w).1 ≠ .error (.OfflineAndNotCached u) := by
  unfold cgrCheckout
  split
  · rename_i e heq
    cases gitref with
    | some r => simp at heq
    | none =>
      unfold find_default_branch at heq
      split_ifs at heq <;> ((try cases heq); simp_all)
  · dsimp only
    split <;> (intro hcontra; split at hcontra <;> simp at hcontra)

/-- After a fully successful `cache_git_repo`, the cache destination
exists on the resulting filesystem. -/
theorem cache_git_repo_ok_exists (git : GitO) (url : String) (gitref : Option String)
    (dest : String) (offline : Bool) (w : World)
    (h : (cache_git_repo git url gitref dest offline w).1 = .ok ()) :
    (cache_git_repo git url gitref dest offline w).2.fs.pathExists dest = true := by
  unfold cache_git_repo at h ⊢
  cases hfc : cgrFetchClone git url dest offline w with
  | mk res w1 =>
    cases res with
    | error e => simp only [hfc] at h; cases h
    | ok u =>
      have h1 : (cgrFetchClone git url dest offline w).2.fs.pathExists dest = true :=
        cgrFetchClone_ok_exists git url dest offline w (by rw [hfc])
      rw [hfc] at h1
      simp only [hfc]
      rw [cgrCheckout_fs]
      exact h1

/-- `cache_git_repo` on an offline cache miss: `OfflineAndNotCached`
carrying the URL, and the world untouched. -/
theorem cache_git_repo_offline_miss (git : GitO) (url : String) (gitref : Option String)
    (dest : String) (w : World) (hmiss : w.fs.pathExists dest = false) :
    cache_git_repo git url gitref dest true w = (.error (.OfflineAndNotCached url), w) := by
  unfold cache_git_repo cgrFetchClone
  simp [hmiss]

/-- `cache_git_repo` on an online cache miss with an untouched URL: a
clone is issued, and the result is never `OfflineAndNotCached`. -/
theorem cache_git_repo_online_miss (git : GitO) (url : String) (gitref : Option String)
    (dest : String) (w : World) (hmiss : w.fs.pathExists dest = false)
    (hunc : w.cached.contains url = false) :
    GitCmd.clone url dest ∈ (cache_git_repo git url gitref dest false w).2.gitLog ∧
    ∀ u, (cache_git_repo git url gitref dest false w).1 ≠
      .error (.OfflineAndNotCached u) := by
  unfold cache_git_repo cgrFetchClone
  simp only [hmiss, hunc, Bool.not_false, Bool.and_self, if_true]
  cases hcl : git.cloneOk url dest with
  | false =>
    simp only [hcl, Bool.false_eq_true, if_false]
    constructor
    · simp
    · intro u
      simp
  | true =>
    simp only [hcl, if_true]
    constructor
    · apply cgrCheckout_log_mem
      simp
    · intro u
      exact cgrCheckout_not_offline git gitref dest _ u

end Archetect

namespace Archetect

/-- Pair form of `cache_git_repo_ok_exists`, convenient after a `split`. -/
theorem cache_git_repo_pair_exists (git : GitO) (url : String) (gitref : Option String)
    (dest : String) (offline : Bool) (w w1 : World) (u : Unit)
    (heq : cache_git_repo git url gitref dest offline w = (.ok u, w1)) :
    w1.fs.pathExists dest = true := by
  have h := cache_git_repo_ok_exists git url gitref dest offline w (by rw [heq])
  rw [heq] at h
  exact h

/-- A successful general local classification leaves the world untouched
and returns an existing path. -/
theorem detectLocalGeneral_ok_exists (env : ResolveEnv) (w : World) (source lp : String)
    (s : Source) (w' : World)
    (h : detectLocalGeneral env w source lp = (.ok s, w')) :
    w' = w ∧ w.fs.pathExists s.local_path = true := by
  unfold detectLocalGeneral at h
  cases hex : w.fs.pathExists lp with
  | false => simp only [hex, Bool.false_eq_true, if_false] at h; simp at h
  | true =>
    simp only [hex, if_true] at h
    cases hd : w.fs.isDir lp with
    | false =>
      simp only [hd, Bool.false_eq_true, if_false] at h
      simp only [Prod.mk.injEq, Except.ok.injEq] at h
      obtain ⟨hs, hw⟩ := h
      subst hs; subst hw
      exact ⟨rfl, hex⟩
    | true =>
      simp only [hd, if_true] at h
      split at h
      · simp at h
      · simp only [Prod.mk.injEq, Except.ok.injEq] at h
        obtain ⟨hs, hw⟩ := h
        subst hs; subst hw
        exact ⟨rfl, hex⟩

/-- A successful shell-expanded classification leaves the world
untouched and returns an existing path. -/
theorem detectLocal_ok_exists (env : ResolveEnv) (w : World) (source : String)
    (rel : Option Source) (s : Source) (w' : World)
    (h : detectLocal env w source rel = (.ok s, w')) :
    w' = w ∧ w.fs.pathExists s.local_path = true := by
  unfold detectLocal at h
  cases hse : env.shellExpand source with
  | none => simp only [hse] at h; simp at h
  | some lp =>
    simp only [hse] at h
    cases hrp : isRelativePath lp with
    | false =>
      simp only [hrp, Bool.false_eq_true, if_false] at h
      exact detectLocalGeneral_ok_exists env w source lp s w' h
    | true =>
      simp only [hrp, if_true] at h
      cases rel with
      | none => exact detectLocalGeneral_ok_exists env w source lp s w' h
      | some parent =>
        cases hj : (w.fs.pathExists (joinPath parent.local_path lp) &&
            w.fs.isDir (joinPath parent.local_path lp)) with
        | false => simp only [hj, Bool.false_eq_true, if_false] at h; simp at h
        | true =>
          simp only [hj, if_true] at h
          split at h
          · simp at h
          · simp only [Prod.mk.injEq, Except.ok.injEq] at h
            obtain ⟨hs, hw⟩ := h
            subst hs; subst hw
            exact ⟨rfl, ((Bool.and_eq_true _ _).mp hj).1⟩

/-- A successful git classification returns a `RemoteGit` at the cache
path, which exists on the resulting filesystem. -/
theorem detectGitBranch_ok_exists (env : ResolveEnv) (path first : String)
    (gitref : Option String) (cp : String) (offline : Bool) (w : World)
    (src : Source) (w' : World)
    (h : detectGitBranch env path first gitref cp offline w = (.ok src, w')) :
    src = .RemoteGit path cp gitref ∧ w'.fs.pathExists cp = true := by
  unfold detectGitBranch at h
  cases hcgr : cache_git_repo env.git first gitref cp offline w with
  | mk res w1 =>
    simp only [hcgr] at h
    cases res with
    | error e => simp at h
    | ok u =>
      dsimp only at h
      split at h
      · simp at h
      · simp only [Prod.mk.injEq, Except.ok.injEq] at h
        obtain ⟨hs, hw⟩ := h
        subst hs; subst hw
        exact ⟨rfl, cache_git_repo_pair_exists _ _ _ _ _ _ _ _ hcgr⟩

/-- A successful `file://` classification returns the existing local
directory path with the world untouched. -/
theorem detectFileUrl_ok_exists (env : ResolveEnv) (w : World) (source lp : String)
    (src : Source) (w' : World)
    (h : detectFileUrl env w source lp = (.ok src, w')) :
    w' = w ∧ src = .LocalDirectory lp ∧ w.fs.pathExists lp = true := by
  unfold detectFileUrl at h
  cases hex : w.fs.pathExists lp with
  | false => simp only [hex, Bool.false_eq_true, if_false] at h; simp at h
  | true =>
    simp only [hex, if_true] at h
    split at h
    · simp at h
    · simp only [Prod.mk.injEq, Except.ok.injEq] at h
      obtain ⟨hs, hw⟩ := h
      subst hs; subst hw
      exact ⟨rfl, rfl, rfl⟩

/-- C7.  For every `Source` value returned successfully by
`Source::detect`, the path returned by `local_path` exists on the
(resulting) filesystem: for `RemoteGit` the cloned cache directory, for
the local variants the verified existing path. -/
theorem resolved_source_exists (env : ResolveEnv) (arch : ArchCfg) (path : String)
    (rel : Option Source) (w : World) (src : Source) (w' : World)
    (h : detect env arch path rel w = (.ok src, w')) :
    w'.fs.pathExists src.local_path = true := by
  unfold detect at h
  cases hssh : sshCaptures ((splitHash path).headD path) with
  | some pr =>
    obtain ⟨host, cpath⟩ := pr
    simp only [hssh] at h
    obtain ⟨hs, hex⟩ := detectGitBranch_ok_exists _ _ _ _ _ _ _ _ _ h
    subst hs
    exact hex
  | none =>
    simp only [hssh] at h
    cases hurl : env.urlParse path with
    | none =>
      simp only [hurl] at h
      obtain ⟨hw, hex⟩ := detectLocal_ok_exists env w path rel src w' h
      subst hw
      exact hex
    | some url =>
      simp only [hurl] at h
      cases hgit : (containsStr path ".git" && url.host.isSome) with
      | true =>
        simp only [hgit, if_true] at h
        obtain ⟨hs, hex⟩ := detectGitBranch_ok_exists _ _ _ _ _ _ _ _ _ h
        subst hs
        exact hex
      | false =>
        simp only [hgit, Bool.false_eq_true, if_false] at h
        cases hfp : url.toFilePath with
        | some lp =>
          simp only [hfp] at h
          obtain ⟨hw, hs, hex⟩ := detectFileUrl_ok_exists env w path lp src w' h
          subst hw; subst hs
          exact hex
        | none =>
          simp only [hfp] at h
          obtain ⟨hw, hex⟩ := detectLocal_ok_exists env w path rel src w' h
          subst hw
          exact hex

/-- Witness for C7: resolving the existing directory `/parent/sub`
returns a `LocalDirectory` whose `local_path` exists. -/
theorem resolved_source_exists_witness :
    wDir.fs.pathExists (Source.local_path (.LocalDirectory "/parent/sub")) = true :=
  resolved_source_exists envL ⟨false, "/cache"⟩ "/parent/sub" none wDir
    (.LocalDirectory "/parent/sub") wDir rfl

end Archetect

namespace Archetect

/-- C3.  For a git location string (SSH-short pattern) whose cache
destination does not exist: with `offline = true`, resolution fails
with `OfflineAndNotCached` carrying the URL (the part of the location
before any `#` fragment); with `offline = false` and the URL untouched
in this process, a `git clone` of the URL into the cache destination is
issued instead of failing with `OfflineAndNotCached`. -/
theorem git_offline_cache_miss (env : ResolveEnv) (arch : ArchCfg) (path : String)
    (rel : Option Source) (w : World) (host cpath : String)
    (hssh : sshCaptures ((splitHash path).headD path) = some (host, cpath))
    (hmiss : w.fs.pathExists (sshCachePath env arch host cpath) = false) :
    (arch.offline = true →
      (detect env arch path rel w).1 =
        .error (.OfflineAndNotCached ((splitHash path).headD path))) ∧
    (arch.offline = false → w.cached.contains ((splitHash path).headD path) = false →
      GitCmd.clone ((splitHash path).headD path) (sshCachePath env arch host cpath) ∈
        (detect env arch path rel w).2.gitLog ∧
      (detect env arch path rel w).1 ≠
        .error (.OfflineAndNotCached ((splitHash path).headD path))) := by
  have hmiss' : w.fs.pathExists (joinPath arch.gitCacheDir
      (get_cache_key env (host ++ "/" ++ cpath))) = false := hmiss
  constructor
  · intro hoff
    unfold detect
    simp only [hssh]
    rw [hoff]
    unfold detectGitBranch
    rw [cache_git_repo_offline_miss env.git _ _ _ w hmiss']
  · intro hoff hunc
    unfold detect
    simp only [hssh]
    rw [hoff]
    have hm := cache_git_repo_online_miss env.git ((splitHash path).headD path)
      (if (splitHash path).length > 1 then (splitHash path).get? 1 else none)
      (joinPath arch.gitCacheDir (get_cache_key env (host ++ "/" ++ cpath))) w hmiss' hunc
    obtain ⟨hm1, hm2⟩ := hm
    unfold detectGitBranch
    cases hcgr : cache_git_repo env.git ((splitHash path).headD path)
        (if (splitHash path).length > 1 then (splitHash path).get? 1 else none)
        (joinPath arch.gitCacheDir (get_cache_key env (host ++ "/" ++ cpath))) false w with
    | mk res w1 =>
      rw [hcgr] at hm1
      cases res with
      | error e =>
        simp only [hcgr]
        constructor
        · simpa using hm1
        · intro hcontra
          apply hm2 ((splitHash path).headD path)
          rw [hcgr]
          simpa using hcontra
      | ok u =>
        simp only [hcgr]
        constructor
        · split <;> simpa using hm1
        · intro hcontra
          split at hcontra
          · rename_i e heq
            dsimp only at hcontra
            simp only [Except.error.injEq] at hcontra
            unfold verify_requirements at heq
            split_ifs at heq <;> simp_all
          · simp at hcontra

/-- Witness for C3: scenario 5 of the spec — `offline = true`, empty
cache, location `git@github.com:example/repo.git` — fails with
`OfflineAndNotCached` naming the URL. -/
theorem git_offline_cache_miss_witness :
    (detect envL ⟨true, "/cache"⟩ "git@github.com:example/repo.git" none wEmpty).1 =
      .error (.OfflineAndNotCached
        ((splitHash "git@github.com:example/repo.git").headD
          "git@github.com:example/repo.git")) :=
  (git_offline_cache_miss envL ⟨true, "/cache"⟩ "git@github.com:example/repo.git" none
    wEmpty "github.com" "example/repo.git" (by decide) (by decide)).1 rfl

/-- C2 counterexample.  A location that shell-expands to the relative
path `f.txt`, with parent `/parent` supplied, where the resolved path
`/parent/f.txt` is an existing *regular file*: `Source::detect` returns
`SourceNotFound` — not `LocalFile` as the claim states — because the
parent-relative branch accepts only existing directories. -/
theorem relative_parent_file_counterexample :
    wFile.fs.pathExists "/parent/f.txt" = true ∧
    wFile.fs.isDir "/parent/f.txt" = false ∧
    (detect envL ⟨false, "/cache"⟩ "f.txt" (some (.LocalDirectory "/parent")) wFile).1 =
      .error (.SourceNotFound "/parent/f.txt") :=
  ⟨by decide, by decide, by decide⟩

/-- C2 (amended).  For a location string that reaches the
shell-expansion step and expands to a relative path, with a parent
Source supplied, `Source::detect` resolves the path against the
parent's local path and returns `LocalDirectory` when the resolved path
is an existing directory (and requirements pass); in every other case —
including an existing regular file — it fails with `SourceNotFound`
carrying the resolved path. -/
theorem relative_parent_resolution (env : ResolveEnv) (arch : ArchCfg) (path : String)
    (w : World) (lp : String) (parent : Source)
    (hssh : sshCaptures ((splitHash path).headD path) = none)
    (hurl : env.urlParse path = none)
    (hexp : env.shellExpand path = some lp)
    (hrel : isRelativePath lp = true)
    (hreq1 : env.reqLoadErr (joinPath parent.local_path lp) = false)
    (hreq2 : env.reqVerifyFail (joinPath parent.local_path lp) = false) :
    (w.fs.pathExists (joinPath parent.local_path lp) = true →
      w.fs.isDir (joinPath parent.local_path lp) = true →
      detect env arch path (some parent) w =
        (.ok (.LocalDirectory (joinPath parent.local_path lp)), w)) ∧
    ((w.fs.pathExists (joinPath parent.local_path lp) &&
        w.fs.isDir (joinPath parent.local_path lp)) = false →
      detect env arch path (some parent) w =
        (.error (.SourceNotFound (joinPath parent.local_path lp)), w)) := by
  constructor
  · intro hex hdir
    unfold detect
    simp only [hssh, hurl]
    unfold detectLocal
    simp only [hexp, hrel, if_true]
    simp only [hex, hdir, Bool.and_self, if_true]
    unfold verify_requirements
    simp only [hreq1, hreq2, Bool.false_eq_true, if_false]
  · intro hne
    unfold detect
    simp only [hssh, hurl]
    unfold detectLocal
    simp only [hexp, hrel, if_true]
    simp only [hne, Bool.false_eq_true, if_false]

/-- Witness for C2 (amended): the relative location `sub` with parent
`/parent` resolves to the existing directory `/parent/sub`. -/
theorem relative_parent_resolution_witness :
    detect envL ⟨false, "/cache"⟩ "sub" (some (.LocalDirectory "/parent")) wDir =
      (.ok (.LocalDirectory
        (joinPath (Source.local_path (.LocalDirectory "/parent")) "sub")), wDir) :=
  (relative_parent_resolution envL ⟨false, "/cache"⟩ "sub" wDir "sub"
    (.LocalDirectory "/parent") (by decide) rfl rfl (by decide) rfl rfl).1
    (by decide) (by decide)

end Archetect
